import Mathlib

/-!
# Vector cosine kernel and math error helpers

A shallow embedding of `math/v_cos.c` (the two-lane double-precision cosine)
and `pl/math/math_err.c` (the error-signalling helpers).

A double is its 64-bit pattern, a natural number below `2^64`; a vector is a
pair of lanes.  Arithmetic is IEEE-754 binary64 under round-to-nearest,
ties-to-even, computed exactly on integers: a finite double with exponent field
`e` and fraction `f` is the integer significand `mantOf` times
`2^(qexpOf - 1074)`.  NaN operands are propagated the AArch64 way (first
signalling NaN, else first quiet NaN, made quiet); invalid operations give the
default NaN.

The build flags `WANT_SIMD_EXCEPT` and `WANT_ERRNO` are boolean parameters,
`errno` is threaded through as an explicit state, and the scalar reference
cosine called by the rare path is a parameter `cos` on bit patterns.
-/

namespace ArmMath

/-! ## IEEE-754 binary64 on bit patterns -/

/-- Sign bit (bit 63). -/
def signOf (b : Nat) : Nat := (b / 2^63) % 2

/-- Biased exponent field (bits 52..62). -/
def expOf (b : Nat) : Nat := (b / 2^52) % 2^11

/-- Fraction field (bits 0..51). -/
def fracOf (b : Nat) : Nat := b % 2^52

/-- NaN test: exponent all ones, fraction non-zero. -/
def isNaN (b : Nat) : Bool := expOf b == 2047 && fracOf b != 0

/-- Infinity test: exponent all ones, fraction zero. -/
def isInf (b : Nat) : Bool := expOf b == 2047 && fracOf b == 0

/-- Zero test (either sign). -/
def isZero (b : Nat) : Bool := expOf b == 0 && fracOf b == 0

/-- Signalling NaN: a NaN whose fraction bit 51 is clear. -/
def isSNaN (b : Nat) : Bool := isNaN b && (b / 2^51) % 2 == 0

/-- Integer significand of a finite double (hidden bit included for normals). -/
def mantOf (b : Nat) : Nat := if expOf b = 0 then fracOf b else 2^52 + fracOf b

/-- Quantum exponent index: the value of a finite double is
`mantOf b * 2^(qexpOf b - 1074)`. -/
def qexpOf (b : Nat) : Nat := expOf b - 1

/-- Bit pattern of positive infinity. -/
def infBits : Nat := 0x7FF0000000000000

/-- The default NaN (positive, quiet, zero payload). -/
def defaultNaN : Nat := 0x7FF8000000000000

/-- Sets fraction bit 51, turning a signalling NaN into a quiet one. -/
def quietNaN (b : Nat) : Nat := if (b / 2^51) % 2 = 0 then b + 2^51 else b

/-- Attaches a sign bit to a magnitude pattern. -/
def packSign (s mag : Nat) : Nat := s * 2^63 + mag

/-- Negation: flips bit 63 and nothing else. -/
@[irreducible] def fneg (b : Nat) : Nat := if signOf b = 0 then b + 2^63 else b - 2^63

/-- One halving step of `ilog2`: drops `w` low bits when something remains. -/
def lgStep (p : Nat × Nat) (w : Nat) : Nat × Nat :=
  if p.1 / 2^w ≠ 0 then (p.1 / 2^w, p.2 + w) else p

/-- Index of the most significant set bit, for `0 < n < 2^8192`. -/
def ilog2 (n : Nat) : Nat :=
  ([4096, 2048, 1024, 512, 256, 128, 64, 32, 16, 8, 4, 2, 1].foldl lgStep (n, 0)).2

/-- Invariant of the halving steps of `ilog2`. -/
def LgInv (n : Nat) (p : Nat × Nat) (w : Nat) : Prop :=
  1 ≤ p.1 ∧ p.1 * 2^p.2 ≤ n ∧ n < (p.1 + 1) * 2^p.2 ∧ p.1 < 2^w

/-- Rounds `M / 2^s` to the nearest integer, ties to even. -/
def rne (M s : Nat) : Nat :=
  let q := M / 2^s
  let r := M % 2^s
  if 2 * r > 2^s ∨ (2 * r = 2^s ∧ q % 2 = 1) then q + 1 else q

/-- Magnitude pattern of the double nearest to `M * 2^(x - off - 1074)`
(ties to even; overflow gives infinity, tiny values become subnormal or zero). -/
@[irreducible] def roundMag (M x off : Nat) : Nat :=
  if M = 0 then 0 else
  let q := (ilog2 M + x) - (off + 52)
  let sh := q + off
  let m := if sh ≤ x then M * 2^(x - sh) else rne M (sh - x)
  let b := q * 2^52 + m
  if infBits ≤ b then infBits else b

/-- NaN result of a two-operand operation with at least one NaN operand. -/
def propNaN2 (a b : Nat) : Nat :=
  if isSNaN a then quietNaN a else if isSNaN b then quietNaN b
  else if isNaN a then a else b

/-- NaN result of a fused multiply-add `a * b + c` with a NaN operand
(the addend is looked at first). -/
def propNaN3 (c a b : Nat) : Nat :=
  if isSNaN c then quietNaN c else if isSNaN a then quietNaN a
  else if isSNaN b then quietNaN b
  else if isNaN c then c else if isNaN a then a else b

/-- Addition of doubles. -/
@[irreducible] def fadd (a b : Nat) : Nat :=
  if isNaN a ∨ isNaN b then propNaN2 a b
  else if isInf a then (if isInf b ∧ signOf a ≠ signOf b then defaultNaN else a)
  else if isInf b then b
  else
    let q := min (qexpOf a) (qexpOf b)
    let A := mantOf a * 2^(qexpOf a - q)
    let B := mantOf b * 2^(qexpOf b - q)
    if signOf a = signOf b then packSign (signOf a) (roundMag (A + B) q 0)
    else if A = B then 0
    else if B < A then packSign (signOf a) (roundMag (A - B) q 0)
    else packSign (signOf b) (roundMag (B - A) q 0)

/-- Subtraction of doubles. -/
@[irreducible] def fsub (a b : Nat) : Nat :=
  if isNaN a ∨ isNaN b then propNaN2 a b else fadd a (fneg b)

/-- Multiplication of doubles. -/
@[irreducible] def fmul (a b : Nat) : Nat :=
  if isNaN a ∨ isNaN b then propNaN2 a b
  else if (isInf a ∧ isZero b) ∨ (isZero a ∧ isInf b) then defaultNaN
  else if isInf a ∨ isInf b then packSign ((signOf a + signOf b) % 2) infBits
  else packSign ((signOf a + signOf b) % 2)
    (roundMag (mantOf a * mantOf b) (qexpOf a + qexpOf b) 1074)

/-- Division of doubles.  The quotient of the significands is taken with 128
extra bits and a sticky bit, which is enough for correct rounding. -/
@[irreducible] def fdiv (a b : Nat) : Nat :=
  if isNaN a ∨ isNaN b then propNaN2 a b
  else if (isInf a ∧ isInf b) ∨ (isZero a ∧ isZero b) then defaultNaN
  else if isInf a ∨ isZero b then packSign ((signOf a + signOf b) % 2) infBits
  else if isZero a ∨ isInf b then packSign ((signOf a + signOf b) % 2) 0
  else
    let N := mantOf a * 2^128
    let Q := N / mantOf b
    let st := if N % mantOf b = 0 then 0 else 1
    packSign ((signOf a + signOf b) % 2)
      (roundMag (2 * Q + st) (qexpOf a + 4096 - qexpOf b) (4096 - 1074 + 129))

/-- Fused multiply-add `a * b + c` with a single rounding. -/
@[irreducible] def ffma (a b c : Nat) : Nat :=
  if isNaN c ∧ ¬ isSNaN c ∧ ((isInf a ∧ isZero b) ∨ (isZero a ∧ isInf b)) then defaultNaN
  else if isNaN a ∨ isNaN b ∨ isNaN c then propNaN3 c a b
  else if (isInf a ∧ isZero b) ∨ (isZero a ∧ isInf b) then defaultNaN
  else if isInf a ∨ isInf b then
    (if isInf c ∧ signOf c ≠ (signOf a + signOf b) % 2 then defaultNaN
     else packSign ((signOf a + signOf b) % 2) infBits)
  else if isInf c then c
  else
    let sp := (signOf a + signOf b) % 2
    let xp := qexpOf a + qexpOf b
    let xc := qexpOf c + 1074
    let q := min xp xc
    let P := mantOf a * mantOf b * 2^(xp - q)
    let C := mantOf c * 2^(xc - q)
    if sp = signOf c then packSign sp (roundMag (P + C) q 1074)
    else if P = C then 0
    else if C < P then packSign sp (roundMag (P - C) q 1074)
    else packSign (signOf c) (roundMag (C - P) q 1074)

/-- The comparison `a == b` of C on doubles. -/
def feq (a b : Nat) : Bool :=
  !isNaN a && !isNaN b && (a == b || (isZero a && isZero b))

/-- Bit pattern of the C hexadecimal literal `0x1.hhhhhhhhhhhhhp<p>`: `m` is
the 53-bit significand `0x1hhhhhhhhhhhhh`, `s` is 1 for a leading minus. -/
@[irreducible] def hexDouble (s m : Nat) (p : Int) : Nat :=
  s * 2^63 + (p + 1023).toNat * 2^52 + (m - 2^52)

/-! ## math/v_cos.c -/

/-- Two lanes of 64 bits: a `float64x2_t` or a `uint64x2_t`. -/
abbrev V2 := Nat × Nat

/-- Modelled from the spec: `v_f64` of `v_math.h` (not among the sources),
the broadcast of a double constant to both lanes. -/
def v_f64 (c : Nat) : V2 := (c, c)

/-- Modelled from the spec: `v_u64` of `v_math.h` (not among the sources),
the broadcast of a 64-bit constant to both lanes. -/
def v_u64 (c : Nat) : V2 := (c, c)

/-- Coefficient table of the sine polynomial, highest degree first. -/
def Poly : List Nat := [
  hexDouble 1 0x19f4a9c8b21dc9 (-41),
  hexDouble 0 0x160e88a10163f2 (-33),
  hexDouble 1 0x1ae6361b7254e7 (-26),
  hexDouble 0 0x171de382e8d62b (-19),
  hexDouble 1 0x1a01a019aeb4ff (-13),
  hexDouble 0 0x1111111110b25e (-7),
  hexDouble 1 0x155555555554c3 (-3)]

/-- The macros `C7` .. `C1`: the coefficients by degree. -/
def C7 : V2 := v_f64 (Poly.getD 0 0)
def C6 : V2 := v_f64 (Poly.getD 1 0)
def C5 : V2 := v_f64 (Poly.getD 2 0)
def C4 : V2 := v_f64 (Poly.getD 3 0)
def C3 : V2 := v_f64 (Poly.getD 4 0)
def C2 : V2 := v_f64 (Poly.getD 5 0)
def C1 : V2 := v_f64 (Poly.getD 6 0)

/-- The reduction constants, the range threshold `2^23` and the sign mask. -/
def InvPi : V2 := v_f64 (hexDouble 0 0x145f306dc9c883 (-2))
def HalfPi : V2 := v_f64 (hexDouble 0 0x1921fb54442d18 0)
def Pi1 : V2 := v_f64 (hexDouble 0 0x1921fb54442d18 1)
def Pi2 : V2 := v_f64 (hexDouble 0 0x11a62633145c06 (-53))
def Pi3 : V2 := v_f64 (hexDouble 0 0x1c1cd129024e09 (-106))
def Shift : V2 := v_f64 (hexDouble 0 0x18000000000000 52)
def RangeVal : V2 := v_f64 (hexDouble 0 0x10000000000000 23)
def AbsMask : V2 := v_u64 0x7fffffffffffffff

/-- The operator `&` on `uint64x2_t`: lane-wise bitwise and. -/
def vandq_u64 (a b : V2) : V2 := (a.1 &&& b.1, a.2 &&& b.2)

/-- The operator `^` on `uint64x2_t`: lane-wise bitwise exclusive or. -/
def veorq_u64 (a b : V2) : V2 := (a.1 ^^^ b.1, a.2 ^^^ b.2)

/-- The operator `>=` on `uint64x2_t`: lane-wise unsigned comparison, all
ones where it holds, zero elsewhere. -/
def vcgeq_u64 (a b : V2) : V2 :=
  (if b.1 ≤ a.1 then 2^64 - 1 else 0, if b.2 ≤ a.2 then 2^64 - 1 else 0)

/-- The operator `<<` on `uint64x2_t`: lane-wise left shift, truncated to 64
bits. -/
def vshlq_n_u64 (a : V2) (k : Nat) : V2 := ((a.1 * 2^k) % 2^64, (a.2 * 2^k) % 2^64)

/-- Modelled from the spec: `v_any_u64` of `v_math.h` (not among the sources),
the "any lane set" reduction of a lane mask. -/
def v_any_u64 (c : V2) : Bool := c.1 != 0 || c.2 != 0

/-- One lane of `vbslq_f64`: bits of `a` where `m` is set, bits of `b`
elsewhere. -/
def bsl (m a b : Nat) : Nat := (m &&& a) ||| (((2^64 - 1) ^^^ m) &&& b)

/-- Lane-wise bitwise select. -/
def vbslq_f64 (m a b : V2) : V2 := (bsl m.1 a.1 b.1, bsl m.2 a.2 b.2)

/-- The operators `+`, `-`, `*` and unary minus on `float64x2_t`, lane-wise. -/
def vaddq_f64 (a b : V2) : V2 := (fadd a.1 b.1, fadd a.2 b.2)
def vsubq_f64 (a b : V2) : V2 := (fsub a.1 b.1, fsub a.2 b.2)
def vmulq_f64 (a b : V2) : V2 := (fmul a.1 b.1, fmul a.2 b.2)
def vnegq_f64 (a : V2) : V2 := (fneg a.1, fneg a.2)

/-- Modelled from the spec: `v_fma_f64` of `v_math.h` (not among the sources),
the lane-wise fused multiply-add `x * y + z` with one rounding. -/
def v_fma_f64 (x y z : V2) : V2 := (ffma x.1 y.1 z.1, ffma x.2 y.2 z.2)

/-- Modelled from the spec: `v_call_f64` of `v_math.h`, which is not among the
sources.  Lanes whose mask is set are replaced by the scalar function applied
to that lane of the original input; the other lanes are untouched. -/
def v_call_f64 (f : Nat → Nat) (x y p : V2) : V2 :=
  (if p.1 ≠ 0 then f x.1 else y.1, if p.2 ≠ 0 then f x.2 else y.2)

/-- The rare path; `cos` is the scalar reference cosine, a parameter. -/
def specialcase (cos : Nat → Nat) (x y cmp : V2) : V2 := v_call_f64 cos x y cmp

/-- The vector cosine `V_NAME (cos)`.  `WANT_SIMD_EXCEPT` is the build flag,
`cos` the scalar reference cosine used by the rare path. -/
def V_NAME_cos (WANT_SIMD_EXCEPT : Bool) (cos : Nat → Nat) (x : V2) : V2 :=
  let r := vandq_u64 x AbsMask
  let cmp := vcgeq_u64 r RangeVal
  let r := if WANT_SIMD_EXCEPT && v_any_u64 cmp then
      vbslq_f64 cmp (v_f64 (hexDouble 0 0x10000000000000 0)) r else r
  let n := v_fma_f64 InvPi (vaddq_f64 r HalfPi) Shift
  let odd := vshlq_n_u64 n 63
  let n := vsubq_f64 n Shift
  let n := vsubq_f64 n (v_f64 (hexDouble 0 0x10000000000000 (-1)))
  let r := v_fma_f64 (vnegq_f64 Pi1) n r
  let r := v_fma_f64 (vnegq_f64 Pi2) n r
  let r := v_fma_f64 (vnegq_f64 Pi3) n r
  let r2 := vmulq_f64 r r
  let y := v_fma_f64 C7 r2 C6
  let y := v_fma_f64 y r2 C5
  let y := v_fma_f64 y r2 C4
  let y := v_fma_f64 y r2 C3
  let y := v_fma_f64 y r2 C2
  let y := v_fma_f64 y r2 C1
  let y := v_fma_f64 (vmulq_f64 y r2) r r
  let y := veorq_u64 y odd
  if v_any_u64 cmp then specialcase cos x y cmp else y

/-! ### The fast path on one lane -/

/-- Line 63 on one lane: `n = fma (InvPi, r + HalfPi, Shift)`. -/
def nLane (r : Nat) : Nat := ffma InvPi.1 (fadd r HalfPi.1) Shift.1

/-- Line 64 on one lane: `odd = bits (n) << 63`. -/
def oddLane (r : Nat) : Nat := (nLane r * 2^63) % 2^64

/-- Lines 65-81 on one lane: the polynomial result before the sign fix. -/
def polyLane (r : Nat) : Nat :=
  let n := fsub (nLane r) Shift.1
  let n := fsub n (hexDouble 0 0x10000000000000 (-1))
  let r := ffma (fneg Pi1.1) n r
  let r := ffma (fneg Pi2.1) n r
  let r := ffma (fneg Pi3.1) n r
  let r2 := fmul r r
  let y := ffma C7.1 r2 C6.1
  let y := ffma y r2 C5.1
  let y := ffma y r2 C4.1
  let y := ffma y r2 C3.1
  let y := ffma y r2 C2.1
  let y := ffma y r2 C1.1
  ffma (fmul y r2) r r

/-- Lines 62-84 on one lane, from the lane magnitude `r`. -/
def fastLane (r : Nat) : Nat := polyLane r ^^^ oddLane r

/-! ## pl/math/math_err.c -/

/-- Domain error code `EDOM` of the system header `errno.h`. -/
def EDOM : Int := 33

/-- Range error code `ERANGE` of the system header `errno.h`. -/
def ERANGE : Int := 34

/-- The helper `with_errno`: sets `errno` when the build has `WANT_ERRNO`,
else it is the macro `(x)`; the value passes through.  The second component is
`errno` after the call. -/
def with_errno (WANT_ERRNO : Bool) (y : Nat) (e : Int) (errno : Int) : Nat × Int :=
  if WANT_ERRNO then (y, e) else (y, errno)

/-- Modelled from the spec: `eval_as_double` of `math_config.h` (not among
the sources), which forces evaluation in double and keeps the value. -/
def eval_as_double (x : Nat) : Nat := x

/-- Modelled from the spec: `opt_barrier_double` of `math_config.h` (not
among the sources), which keeps the compiler from folding the operation and
keeps the value. -/
def opt_barrier_double (x : Nat) : Nat := x

/-- The helper `xflow`: `(sign ? -y : y) * y` with a range error. -/
def xflow (WANT_ERRNO : Bool) (sign : Nat) (y : Nat) (errno : Int) : Nat × Int :=
  let y := eval_as_double (fmul (opt_barrier_double (if sign ≠ 0 then fneg y else y)) y)
  with_errno WANT_ERRNO y ERANGE errno

/-- Underflow sentinel. -/
def __math_uflow (WANT_ERRNO : Bool) (sign : Nat) (errno : Int) : Nat × Int :=
  xflow WANT_ERRNO sign (hexDouble 0 0x10000000000000 (-767)) errno

/-- Sentinel for a result that underflows in some rounding modes only. -/
def __math_may_uflow (WANT_ERRNO : Bool) (sign : Nat) (errno : Int) : Nat × Int :=
  xflow WANT_ERRNO sign (hexDouble 0 0x18000000000000 (-538)) errno

/-- Overflow sentinel. -/
def __math_oflow (WANT_ERRNO : Bool) (sign : Nat) (errno : Int) : Nat × Int :=
  xflow WANT_ERRNO sign (hexDouble 0 0x10000000000000 769) errno

/-- Division-by-zero sentinel. -/
def __math_divzero (WANT_ERRNO : Bool) (sign : Nat) (errno : Int) : Nat × Int :=
  let y := fdiv (opt_barrier_double
    (if sign ≠ 0 then hexDouble 1 0x10000000000000 0 else hexDouble 0 0x10000000000000 0)) 0
  with_errno WANT_ERRNO y ERANGE errno

/-- Invalid-operation sentinel: `(x - x) / (x - x)`, a domain error unless
`x` is a NaN. -/
def __math_invalid (WANT_ERRNO : Bool) (x : Nat) (errno : Int) : Nat × Int :=
  let y := fdiv (fsub x x) (fsub x x)
  if isNaN x then (y, errno) else with_errno WANT_ERRNO y EDOM errno

/-- Range error when the result `y` compares equal to zero. -/
def __math_check_uflow (WANT_ERRNO : Bool) (y : Nat) (errno : Int) : Nat × Int :=
  if feq y 0 then with_errno WANT_ERRNO y ERANGE errno else (y, errno)

/-- Range error when the result `y` is infinite. -/
def __math_check_oflow (WANT_ERRNO : Bool) (y : Nat) (errno : Int) : Nat × Int :=
  if isInf y then with_errno WANT_ERRNO y ERANGE errno else (y, errno)

/-! ## Vocabulary of the claims -/

/-- The magnitude of a finite double is at least `2^23`: its value is
`mantOf b * 2^(qexpOf b - 1074)`, compared after scaling by `2^1074`. -/
def absGe23 (b : Nat) : Prop := 2^(23 + 1074) ≤ mantOf b * 2^(qexpOf b)

/-- A lane the rare path is meant for: NaN, infinite, or of magnitude at
least `2^23`. -/
def rareLane (b : Nat) : Prop := isNaN b = true ∨ isInf b = true ∨ absGe23 b

/-- A lane of the fast domain: finite and of magnitude below `2^23`. -/
def fastDomain (b : Nat) : Prop := isNaN b = false ∧ isInf b = false ∧ ¬ absGe23 b

/-- Exact rational value of a finite double. -/
def toRat (b : Nat) : ℚ :=
  (if signOf b = 0 then 1 else -1) * (mantOf b : ℚ) * (2 : ℚ) ^ ((qexpOf b : ℤ) - 1074)

/-- The vector negation `-x` of the evenness claim. -/
def vneg (x : V2) : V2 := vnegq_f64 x

/-- Lane `i` of a vector. -/
def lane (v : V2) (i : Fin 2) : Nat := if i = 0 then v.1 else v.2

/-- Lines 51-52: the lane mask `cmp` of the vector cosine. -/
def cmpMask (x : V2) : V2 := vcgeq_u64 (vandq_u64 x AbsMask) RangeVal

/-! ## Constants as bit patterns -/

theorem InvPi_bits : InvPi = (0x3FD45F306DC9C883, 0x3FD45F306DC9C883) := by decide!
theorem HalfPi_bits : HalfPi = (0x3FF921FB54442D18, 0x3FF921FB54442D18) := by decide!
theorem Shift_bits : Shift = (0x4338000000000000, 0x4338000000000000) := by decide!
theorem RangeVal_bits : RangeVal = (0x4160000000000000, 0x4160000000000000) := by decide!
theorem one_bits : hexDouble 0 0x10000000000000 0 = 0x3FF0000000000000 := by decide!

/-! ## Lane view of the vector routine -/

theorem V_NAME_cos_lanes (se : Bool) (cos : Nat → Nat) (x : V2) :
    V_NAME_cos se cos x =
      (let r := vandq_u64 x AbsMask
       let cmp := vcgeq_u64 r RangeVal
       let r := if se && v_any_u64 cmp then
          vbslq_f64 cmp (v_f64 (hexDouble 0 0x10000000000000 0)) r else r
       if v_any_u64 cmp then
         (if cmp.1 ≠ 0 then cos x.1 else fastLane r.1,
          if cmp.2 ≠ 0 then cos x.2 else fastLane r.2)
       else (fastLane r.1, fastLane r.2)) := by
  cases h : v_any_u64 (vcgeq_u64 (vandq_u64 x AbsMask) RangeVal) <;>
    simp only [V_NAME_cos, h] <;> rfl

set_option maxRecDepth 100000 in
theorem fastLane_zero : fastLane 0 = 0x3FEFFFFFFFFFFFFF := by decide!

set_option maxRecDepth 100000 in
theorem fastLane_five : fastLane 0x4014000000000000 = 0x3FD22785706B4ADA := by decide!

/-! ## Bit-level facts -/

theorem and_absMask (a : Nat) : a &&& 0x7fffffffffffffff = a % 2^63 :=
  Nat.and_pow_two_sub_one_eq_mod a 63

theorem bsl_zero (a b : Nat) (hb : b < 2^64) : bsl 0 a b = b := by
  unfold bsl
  rw [Nat.zero_and, Nat.xor_zero, Nat.zero_or, Nat.and_comm]
  exact (Nat.and_pow_two_sub_one_eq_mod b 64).trans (Nat.mod_eq_of_lt hb)

/-- The lane mask and the value of each lane of the vector cosine: a lane
whose sign-stripped pattern reaches the pattern of 2^23 holds the scalar
cosine of the original lane, any other lane the fast-path value. -/
theorem V_NAME_cos_fst (se : Bool) (cos : Nat → Nat) (x : V2) :
    (V_NAME_cos se cos x).1 =
      if 0x4160000000000000 ≤ x.1 % 2^63 then cos x.1 else fastLane (x.1 % 2^63) := by
  have hb : x.1 % 2^63 < 2^64 := by omega
  rw [V_NAME_cos_lanes]
  simp only [vandq_u64, AbsMask, v_u64, RangeVal_bits, vcgeq_u64, v_any_u64, vbslq_f64,
    and_absMask]
  generalize x.1 % 2^63 = r1 at hb ⊢
  generalize x.2 % 2^63 = r2
  by_cases h1 : 0x4160000000000000 ≤ r1 <;>
    by_cases h2 : 0x4160000000000000 ≤ r2 <;>
    cases se <;> simp [h1, h2, bsl_zero _ _ hb]

theorem V_NAME_cos_snd (se : Bool) (cos : Nat → Nat) (x : V2) :
    (V_NAME_cos se cos x).2 =
      if 0x4160000000000000 ≤ x.2 % 2^63 then cos x.2 else fastLane (x.2 % 2^63) := by
  have hb : x.2 % 2^63 < 2^64 := by omega
  rw [V_NAME_cos_lanes]
  simp only [vandq_u64, AbsMask, v_u64, RangeVal_bits, vcgeq_u64, v_any_u64, vbslq_f64,
    and_absMask]
  generalize x.1 % 2^63 = r1
  generalize x.2 % 2^63 = r2 at hb ⊢
  by_cases h1 : 0x4160000000000000 ≤ r1 <;>
    by_cases h2 : 0x4160000000000000 ≤ r2 <;>
    cases se <;> simp [h1, h2, bsl_zero _ _ hb]

/-! ## The range test -/

theorem expOf_ge_iff (b : Nat) : 1046 ≤ expOf b ↔ 0x4160000000000000 ≤ b % 2^63 := by
  unfold expOf; omega

theorem mul_two_pow_lt {m q a c e : Nat} (hm : m < 2^a) (hq : q ≤ c) (he : a + c = e) :
    m * 2^q < 2^e := by
  subst he
  rw [Nat.pow_add]
  exact Nat.mul_lt_mul_of_lt_of_le hm (Nat.pow_le_pow_right (by norm_num) hq)
    (Nat.pow_pos (by norm_num))

theorem le_mul_two_pow {m q a c e : Nat} (hm : 2^a ≤ m) (hq : c ≤ q) (he : a + c = e) :
    2^e ≤ m * 2^q := by
  subst he
  rw [Nat.pow_add]
  exact Nat.mul_le_mul hm (Nat.pow_le_pow_right (by norm_num) hq)

theorem fracOf_lt (b : Nat) : fracOf b < 2^52 := Nat.mod_lt _ (by norm_num)

theorem expOf_lt (b : Nat) : expOf b < 2^11 := Nat.mod_lt _ (by norm_num)

theorem mantOf_lt (b : Nat) : mantOf b < 2^53 := by
  have hf := fracOf_lt b
  unfold mantOf; split <;> omega

theorem absGe23_iff (b : Nat) : absGe23 b ↔ 1046 ≤ expOf b := by
  unfold absGe23
  have hf := fracOf_lt b
  constructor
  · intro h
    by_contra hlt
    have hq : qexpOf b ≤ 1044 := by unfold qexpOf; omega
    exact absurd h (Nat.not_le.mpr (mul_two_pow_lt (mantOf_lt b) hq rfl))
  · intro h
    have hq : 1045 ≤ qexpOf b := by unfold qexpOf; omega
    have hm : 2^52 ≤ mantOf b := by unfold mantOf; split <;> omega
    exact le_mul_two_pow hm hq rfl

theorem rareLane_iff (b : Nat) : rareLane b ↔ 0x4160000000000000 ≤ b % 2^63 := by
  rw [← expOf_ge_iff]
  unfold rareLane
  rw [absGe23_iff]
  simp only [isNaN, isInf, Bool.and_eq_true, beq_iff_eq, bne_iff_ne]
  constructor
  · rintro (h | h | h) <;> omega
  · intro h; exact Or.inr (Or.inr h)

theorem fastDomain_iff (b : Nat) : fastDomain b ↔ b % 2^63 < 0x4160000000000000 := by
  have h := rareLane_iff b
  unfold rareLane at h
  unfold fastDomain
  constructor
  · rintro ⟨h1, h2, h3⟩
    by_contra hc
    rcases h.mpr (by omega) with h | h | h
    · simp [h1] at h
    · simp [h2] at h
    · exact h3 h
  · intro hlt
    have hn : ¬ (0x4160000000000000 ≤ b % 2^63) := by omega
    rw [← h] at hn
    push_neg at hn
    exact ⟨by simpa using hn.1, by simpa using hn.2.1, hn.2.2⟩

/-! ## Negation and NaN propagation -/

theorem expOf_fneg (b : Nat) : expOf (fneg b) = expOf b := by
  unfold expOf fneg signOf; split <;> omega

theorem fracOf_fneg (b : Nat) : fracOf (fneg b) = fracOf b := by
  unfold fracOf fneg signOf; split <;> omega

theorem signOf_fneg (b : Nat) : signOf (fneg b) ≠ signOf b := by
  unfold fneg signOf; split <;> omega

theorem isNaN_fneg (b : Nat) : isNaN (fneg b) = isNaN b := by
  unfold isNaN; rw [expOf_fneg, fracOf_fneg]

theorem isInf_fneg (b : Nat) : isInf (fneg b) = isInf b := by
  unfold isInf; rw [expOf_fneg, fracOf_fneg]

theorem mantOf_fneg (b : Nat) : mantOf (fneg b) = mantOf b := by
  unfold mantOf; rw [expOf_fneg, fracOf_fneg]

theorem qexpOf_fneg (b : Nat) : qexpOf (fneg b) = qexpOf b := by
  unfold qexpOf; rw [expOf_fneg]

theorem isNaN_quietNaN (b : Nat) (h : isNaN b = true) : isNaN (quietNaN b) = true := by
  simp only [isNaN, expOf, fracOf, Bool.and_eq_true, beq_iff_eq, bne_iff_ne] at h ⊢
  unfold quietNaN
  split <;> constructor <;> omega

theorem isNaN_propNaN2_self (b : Nat) (h : isNaN b = true) :
    isNaN (propNaN2 b b) = true := by
  unfold propNaN2
  split
  · exact isNaN_quietNaN b h
  · simp [h]

theorem isNaN_defaultNaN : isNaN defaultNaN = true := by decide

/-! ## Arithmetic facts used by the error helpers -/

theorem fsub_self_nan (x : Nat) (h : isNaN x = true) : isNaN (fsub x x) = true := by
  unfold fsub
  rw [if_pos (Or.inl h)]
  exact isNaN_propNaN2_self x h

theorem fsub_self_inf (x : Nat) (h : isInf x = true) : fsub x x = defaultNaN := by
  have hn : isNaN x = false := by
    simp only [isInf, isNaN, Bool.and_eq_true, beq_iff_eq] at h ⊢
    simp [h.1, h.2]
  unfold fsub fadd
  simp [hn, h, isNaN_fneg, isInf_fneg, (signOf_fneg x).symm]

theorem fsub_self_finite (x : Nat) (hn : isNaN x = false) (hi : isInf x = false) :
    fsub x x = 0 := by
  unfold fsub fadd
  simp [hn, hi, isNaN_fneg, isInf_fneg, mantOf_fneg, qexpOf_fneg, (signOf_fneg x).symm]

theorem fdiv_self_nan (a : Nat) (h : isNaN a = true) : isNaN (fdiv a a) = true := by
  unfold fdiv
  rw [if_pos (Or.inl h)]
  exact isNaN_propNaN2_self a h

theorem fdiv_zero_zero : fdiv 0 0 = defaultNaN := by decide!

theorem invalid_value_nan (x : Nat) : isNaN (fdiv (fsub x x) (fsub x x)) = true := by
  cases hn : isNaN x
  · cases hi : isInf x
    · rw [fsub_self_finite x hn hi, fdiv_zero_zero]; exact isNaN_defaultNaN
    · rw [fsub_self_inf x hi]; exact fdiv_self_nan _ isNaN_defaultNaN
  · exact fdiv_self_nan _ (fsub_self_nan x hn)

theorem feq_zero_iff (y : Nat) (hy : y < 2^64) : feq y 0 = true ↔ (y = 0 ∨ y = 2^63) := by
  have h0 : isNaN 0 = false := by decide
  have hz : isZero 0 = true := by decide
  simp only [feq, h0, hz, isNaN, isZero, expOf, fracOf, Bool.and_eq_true, Bool.or_eq_true,
    Bool.not_eq_true', beq_iff_eq, bne_iff_ne, Bool.and_eq_false_iff, beq_eq_false_iff_ne,
    Bool.not_false, Bool.and_true, ne_eq, Decidable.not_not, Bool.true_and]
  constructor
  · rintro ⟨-, h | h⟩ <;> omega
  · intro h
    refine ⟨?_, ?_⟩ <;> omega

theorem isInf_iff (y : Nat) (hy : y < 2^64) :
    isInf y = true ↔ (y = 0x7FF0000000000000 ∨ y = 0xFFF0000000000000) := by
  simp only [isInf, expOf, fracOf, Bool.and_eq_true, beq_iff_eq]
  omega

set_option maxRecDepth 100000 in
theorem xflow_products :
    fmul (hexDouble 0 0x10000000000000 (-767)) (hexDouble 0 0x10000000000000 (-767)) = 0 ∧
    fmul (fneg (hexDouble 0 0x10000000000000 (-767))) (hexDouble 0 0x10000000000000 (-767))
      = 0x8000000000000000 ∧
    fmul (hexDouble 0 0x18000000000000 (-538)) (hexDouble 0 0x18000000000000 (-538)) = 1 ∧
    fmul (fneg (hexDouble 0 0x18000000000000 (-538))) (hexDouble 0 0x18000000000000 (-538))
      = 0x8000000000000001 ∧
    fmul (hexDouble 0 0x10000000000000 769) (hexDouble 0 0x10000000000000 769)
      = 0x7FF0000000000000 ∧
    fmul (fneg (hexDouble 0 0x10000000000000 769)) (hexDouble 0 0x10000000000000 769)
      = 0xFFF0000000000000 := by decide!

/-! ## Lanes of the result -/

theorem lane_V_NAME_cos (se : Bool) (cos : Nat → Nat) (x : V2) (i : Fin 2) :
    lane (V_NAME_cos se cos x) i =
      if 0x4160000000000000 ≤ lane x i % 2^63 then cos (lane x i)
      else fastLane (lane x i % 2^63) := by
  unfold lane
  split
  · exact V_NAME_cos_fst se cos x
  · exact V_NAME_cos_snd se cos x

theorem lane_cmpMask (x : V2) (i : Fin 2) :
    lane (cmpMask x) i = if 0x4160000000000000 ≤ lane x i % 2^63 then 2^64 - 1 else 0 := by
  unfold lane cmpMask
  simp only [vandq_u64, AbsMask, v_u64, RangeVal_bits, vcgeq_u64, and_absMask]
  split <;> rfl

theorem fneg_mod (b : Nat) : fneg b % 2^63 = b % 2^63 := by
  unfold fneg signOf; split <;> omega

theorem lane_vneg (x : V2) (i : Fin 2) : lane (vneg x) i = fneg (lane x i) := by
  unfold lane vneg vnegq_f64; split <;> rfl

theorem V_NAME_cos_fast_pair (se : Bool) (cos : Nat → Nat) (a b : Nat)
    (ha : a < 0x4160000000000000) (hb : b < 0x4160000000000000) :
    V_NAME_cos se cos (a, b) = (fastLane a, fastLane b) := by
  have ea : a % 2^63 = a := Nat.mod_eq_of_lt (by omega)
  have eb : b % 2^63 = b := Nat.mod_eq_of_lt (by omega)
  apply Prod.ext
  · rw [V_NAME_cos_fst]
    show (if 0x4160000000000000 ≤ a % 2^63 then cos a else fastLane (a % 2^63)) = fastLane a
    rw [ea, if_neg (by omega)]
  · rw [V_NAME_cos_snd]
    show (if 0x4160000000000000 ≤ b % 2^63 then cos b else fastLane (b % 2^63)) = fastLane b
    rw [eb, if_neg (by omega)]

/-! ## Integer logarithm and rounding -/

theorem lgStep_inv (n w : Nat) (p : Nat × Nat) (h : LgInv n p (w + w)) :
    LgInv n (lgStep p w) w := by
  obtain ⟨h1, h2, h3, h4⟩ := h
  obtain ⟨a, e⟩ := p
  simp only at h1 h2 h3 h4
  have hT : 0 < 2^w := Nat.pow_pos (by norm_num)
  unfold lgStep
  simp only
  split
  · rename_i hne
    have hdiv : a / 2^w * 2^w ≤ a := Nat.div_mul_le_self a (2^w)
    have hlt : a + 1 ≤ (a / 2^w + 1) * 2^w := by
      have h5 := Nat.div_add_mod a (2^w)
      have h6 := Nat.mod_lt a hT
      nlinarith
    refine ⟨Nat.pos_of_ne_zero hne, ?_, ?_, ?_⟩
    · simp only
      rw [Nat.pow_add, ← Nat.mul_assoc, Nat.mul_right_comm]
      calc a / 2^w * 2^w * 2^e ≤ a * 2^e := Nat.mul_le_mul_right _ hdiv
        _ ≤ n := h2
    · simp only
      rw [Nat.pow_add, Nat.mul_comm (2^e) (2^w), ← Nat.mul_assoc]
      calc n < (a + 1) * 2^e := h3
        _ ≤ (a / 2^w + 1) * 2^w * 2^e := Nat.mul_le_mul_right _ hlt
    · simp only
      rw [Nat.pow_add] at h4
      exact Nat.div_lt_of_lt_mul h4
  · rename_i hz
    simp only [ne_eq, Decidable.not_not] at hz
    refine ⟨h1, h2, h3, ?_⟩
    simp only
    exact (Nat.div_eq_zero_iff hT).mp hz


theorem ilog2_spec (n : Nat) (h1 : 1 ≤ n) (h2 : n < 2^(4096 + 4096)) :
    2^(ilog2 n) ≤ n ∧ n < 2^(ilog2 n + 1) := by
  have i0 : LgInv n (n, 0) (4096 + 4096) := ⟨h1, by simp, by simp, h2⟩
  have i1 := lgStep_inv n 4096 _ i0
  have i2 := lgStep_inv n 2048 _ i1
  have i3 := lgStep_inv n 1024 _ i2
  have i4 := lgStep_inv n 512 _ i3
  have i5 := lgStep_inv n 256 _ i4
  have i6 := lgStep_inv n 128 _ i5
  have i7 := lgStep_inv n 64 _ i6
  have i8 := lgStep_inv n 32 _ i7
  have i9 := lgStep_inv n 16 _ i8
  have i10 := lgStep_inv n 8 _ i9
  have i11 := lgStep_inv n 4 _ i10
  have i12 := lgStep_inv n 2 _ i11
  have i13 := lgStep_inv n 1 _ i12
  obtain ⟨a1, a2, a3, a4⟩ := i13
  have e : (lgStep (lgStep (lgStep (lgStep (lgStep (lgStep (lgStep (lgStep (lgStep (lgStep
      (lgStep (lgStep (lgStep (n, 0) 4096) 2048) 1024) 512) 256) 128) 64) 32) 16) 8) 4) 2)
      1) = ([4096, 2048, 1024, 512, 256, 128, 64, 32, 16, 8, 4, 2, 1].foldl lgStep (n, 0)) := rfl
  rw [e] at a1 a2 a3 a4
  unfold ilog2
  generalize ([4096, 2048, 1024, 512, 256, 128, 64, 32, 16, 8, 4, 2, 1].foldl lgStep (n, 0)) = p
    at a1 a2 a3 a4 ⊢
  have hp : p.1 = 1 := by
    have : p.1 < 2 := by simpa using a4
    omega
  rw [hp] at a2 a3
  constructor
  · simpa using a2
  · rw [Nat.pow_succ, Nat.mul_comm]; simpa using a3

theorem ilog2_eq (n L : Nat) (hn : n < 2^(4096 + 4096)) (hl : 2^L ≤ n) (hu : n < 2^(L + 1)) :
    ilog2 n = L := by
  have h1 : 1 ≤ n := Nat.le_trans (Nat.pow_pos (by norm_num)) hl
  obtain ⟨s1, s2⟩ := ilog2_spec n h1 hn
  have a : ilog2 n < L + 1 :=
    (Nat.pow_lt_pow_iff_right (by norm_num : 1 < 2)).mp (Nat.lt_of_le_of_lt s1 hu)
  have b : L < ilog2 n + 1 :=
    (Nat.pow_lt_pow_iff_right (by norm_num : 1 < 2)).mp (Nat.lt_of_le_of_lt hl s2)
  clear hn hl hu s1 s2
  omega


theorem rne_le (M s : Nat) : rne M s ≤ M / 2^s + 1 := by
  unfold rne
  dsimp only
  split <;> omega

theorem rne_ge (M s : Nat) : M / 2^s ≤ rne M s := by
  unfold rne
  dsimp only
  split <;> omega

theorem roundMag_le (M x off : Nat) (hM : M < 2^(4096 + 4096)) :
    roundMag M x off ≤ ((ilog2 M + x) - (off + 52)) * 2^52 + 2^53 := by
  unfold roundMag
  split
  · exact Nat.zero_le _
  · rename_i hM0
    have h1 : 1 ≤ M := Nat.pos_of_ne_zero hM0
    obtain ⟨-, s2⟩ := ilog2_spec M h1 hM
    clear hM
    dsimp only
    generalize ilog2 M = L at s2 ⊢
    have hm : (if L + x - (off + 52) + off ≤ x then M * 2^(x - (L + x - (off + 52) + off))
        else rne M (L + x - (off + 52) + off - x)) ≤ 2^53 := by
      split
      · rename_i hle
        exact Nat.le_of_lt (mul_two_pow_lt (c := 52 - L) s2 (by omega) (by omega))
      · rename_i hgt
        have hdiv : M / 2^(L + x - (off + 52) + off - x) < 2^53 := by
          apply Nat.div_lt_of_lt_mul
          calc M < 2^(L + 1) := s2
            _ ≤ 2^((L + x - (off + 52) + off - x) + 53) :=
              Nat.pow_le_pow_right (by norm_num) (by omega)
            _ = 2^(L + x - (off + 52) + off - x) * 2^53 := Nat.pow_add _ _ _
        have h3 := rne_le M (L + x - (off + 52) + off - x)
        clear s2
        omega
    generalize (if L + x - (off + 52) + off ≤ x then M * 2^(x - (L + x - (off + 52) + off))
        else rne M (L + x - (off + 52) + off - x)) = m at hm ⊢
    clear s2
    unfold infBits
    split <;> omega

/-! ## The shifted multiple of line 63 -/

theorem two_pow_le {a b : Nat} (h : a ≤ b) : 2^a ≤ 2^b :=
  Nat.pow_le_pow_right (Nat.succ_pos 1) h

theorem lt_of_two_pow_lt {a b : Nat} (h : 2^a < 2^b) : a < b :=
  (Nat.pow_lt_pow_iff_right (by norm_num : 1 < 2)).mp h

theorem mul_pow_sub_mul (m a q : Nat) (h : q ≤ a) : m * 2^(a - q) * 2^q = m * 2^a := by
  rw [Nat.mul_assoc, ← Nat.pow_add, Nat.sub_add_cancel h]

theorem add_lt_two_pow_succ {a b e : Nat} (ha : a < 2^e) (hb : b < 2^e) :
    a + b < 2^(e + 1) := by
  rw [Nat.pow_succ]; omega

theorem packSign_zero (m : Nat) : packSign 0 m = m := by unfold packSign; omega

theorem small_facts (r : Nat) (hr : r < 0x4160000000000000) :
    isNaN r = false ∧ isInf r = false ∧ signOf r = 0 ∧ qexpOf r ≤ 1044 := by
  have he : expOf r ≤ 1045 := by unfold expOf; omega
  refine ⟨?_, ?_, ?_, ?_⟩
  · unfold isNaN; simp; omega
  · unfold isInf; simp; omega
  · unfold signOf; omega
  · unfold qexpOf; omega

theorem fadd_halfPi_le (r : Nat) (hr : r < 0x4160000000000000) :
    fadd r HalfPi.1 ≤ 0x4170000000000000 := by
  have hH : HalfPi.1 = 0x3FF921FB54442D18 := congrArg Prod.fst HalfPi_bits
  rw [hH]
  obtain ⟨hnr, hir, hsr, hqr⟩ := small_facts r hr
  have hnH : isNaN 0x3FF921FB54442D18 = false := by decide
  have hiH : isInf 0x3FF921FB54442D18 = false := by decide
  have hsH : signOf 0x3FF921FB54442D18 = 0 := by decide
  have hqH : qexpOf 0x3FF921FB54442D18 = 1022 := by decide
  have hmH : mantOf 0x3FF921FB54442D18 = 0x1921FB54442D18 := by decide
  have hmr := mantOf_lt r
  unfold fadd
  simp only [hnr, hnH, hir, hiH, hsr, hsH, hqH, hmH, Bool.false_eq_true, or_self, if_false,
    if_true, packSign_zero]
  generalize hq : min (qexpOf r) 1022 = q
  have hq1 : q ≤ qexpOf r := by omega
  have hq2 : q ≤ 1022 := by omega
  generalize hM : mantOf r * 2^(qexpOf r - q) + 0x1921FB54442D18 * 2^(1022 - q) = M
  have e1 : mantOf r * 2^(qexpOf r - q) * 2^q = mantOf r * 2^(qexpOf r) :=
    mul_pow_sub_mul _ _ _ hq1
  have e2 : 0x1921FB54442D18 * 2^(1022 - q) * 2^q = 0x1921FB54442D18 * 2^1022 :=
    mul_pow_sub_mul _ _ _ hq2
  have b1 : mantOf r * 2^(qexpOf r) < 2^1097 := mul_two_pow_lt hmr hqr rfl
  have b2 : 0x1921FB54442D18 * 2^1022 < 2^1097 :=
    mul_two_pow_lt (a := 53) (c := 1044) (by norm_num) (by norm_num) rfl
  have hMq : M * 2^q < 2^(1097 + 1) := by
    rw [← hM, Nat.add_mul, e1, e2]
    exact add_lt_two_pow_succ b1 b2
  have hpos : 0 < 2^q := Nat.pow_pos (by norm_num)
  have hM1 : 1 ≤ M := by
    rw [← hM]
    have : 0 < 2^(1022 - q) := Nat.pow_pos (by norm_num)
    clear e1 e2 b1 b2 hMq
    omega
  have hMlt : M < 2^(4096 + 4096) :=
    Nat.lt_of_le_of_lt (Nat.le_mul_of_pos_right M hpos)
      (Nat.lt_of_lt_of_le hMq
        (two_pow_le (a := 1097 + 1) (b := 4096 + 4096) (by norm_num)))
  obtain ⟨s1, -⟩ := ilog2_spec M hM1 hMlt
  have hL : ilog2 M + q < 1097 + 1 := by
    apply lt_of_two_pow_lt
    rw [Nat.pow_add 2 (ilog2 M) q]
    exact Nat.lt_of_le_of_lt (Nat.mul_le_mul_right _ s1) hMq
  have hle := roundMag_le M q 0 hMlt
  clear e1 e2 b1 b2 hMq hMlt s1 hM
  generalize ilog2 M = L at hL hle
  omega


theorem rne_shift (P t : Nat) (hP : P < 2^106) (ht : 82 ≤ t) :
    ∃ k, k ≤ 2^24 ∧ rne (P + 0x18000000000000 * 2^t) t = 0x18000000000000 + k := by
  have hT : 0 < 2^t := Nat.pow_pos (by norm_num)
  have hd : (P + 0x18000000000000 * 2^t) / 2^t = 0x18000000000000 + P / 2^t := by
    rw [Nat.add_mul_div_right _ _ hT]; omega
  have hPT : P / 2^t < 2^24 := by
    apply Nat.div_lt_of_lt_mul
    calc P < 2^106 := hP
      _ ≤ 2^(t + 24) := Nat.pow_le_pow_right (by norm_num) (by omega)
      _ = 2^t * 2^24 := Nat.pow_add _ _ _
  have h1 := rne_le (P + 0x18000000000000 * 2^t) t
  have h2 := rne_ge (P + 0x18000000000000 * 2^t) t
  rw [hd] at h1 h2
  clear hP hd
  generalize P / 2^t = c at hPT h1 h2
  generalize rne (P + 0x18000000000000 * 2^t) t = d at h1 h2
  exact ⟨d - 0x18000000000000, by omega, by omega⟩

theorem roundMag_shift (P t : Nat) (hP : P < 2^106) (ht : 82 ≤ t) (ht2 : t ≤ 1128) :
    ∃ k, k ≤ 2^24 ∧
      roundMag (P + 0x18000000000000 * 2^t) (2148 - t) 1074 = 0x4338000000000000 + k := by
  have hT : 0 < 2^t := Nat.pow_pos (by norm_num)
  have hPT : P < 2^51 * 2^t := by
    calc P < 2^106 := hP
      _ ≤ 2^(51 + t) := Nat.pow_le_pow_right (by norm_num) (by omega)
      _ = 2^51 * 2^t := Nat.pow_add _ _ _
  have hlo : 2^(52 + t) ≤ P + 0x18000000000000 * 2^t := by
    rw [Nat.pow_add]
    have : 2^52 * 2^t ≤ 0x18000000000000 * 2^t := Nat.mul_le_mul_right _ (by norm_num)
    clear hP; omega
  have hhi : P + 0x18000000000000 * 2^t < 2^(52 + t + 1) := by
    have e : 2^(52 + t + 1) = 2^53 * 2^t := by rw [← Nat.pow_add]; congr 1; omega
    rw [e]
    have e2 : (2:ℕ)^53 = 2^51 + 0x18000000000000 := by norm_num
    rw [e2, Nat.add_mul]
    clear hP; omega
  have hbig : P + 0x18000000000000 * 2^t < 2^(4096 + 4096) :=
    Nat.lt_of_lt_of_le hhi
      (two_pow_le (a := 52 + t + 1) (b := 4096 + 4096) (by omega))
  have hL := ilog2_eq _ _ hbig hlo hhi
  have hne : P + 0x18000000000000 * 2^t ≠ 0 :=
    Nat.ne_of_gt (Nat.lt_of_lt_of_le (Nat.pow_pos (by norm_num)) hlo)
  obtain ⟨k, hk, hr⟩ := rne_shift P t hP ht
  refine ⟨k, hk, ?_⟩
  unfold roundMag
  rw [if_neg hne]
  dsimp only
  rw [hL]
  have q1 : 52 + t + (2148 - t) - (1074 + 52) = 1074 := by omega
  have q2 : ¬ (1074 + 1074 ≤ 2148 - t) := by omega
  have q3 : 1074 + 1074 - (2148 - t) = t := by omega
  rw [q1, if_neg q2, q3, hr]
  unfold infBits
  rw [if_neg (by clear hP hbig hlo hhi hPT hr hL; omega)]
  clear hP hbig hlo hhi hPT hr hL; omega

theorem finite_facts (s : Nat) (hs : s ≤ 0x4170000000000000) :
    isNaN s = false ∧ isInf s = false ∧ isZero s = isZero s ∧ signOf s = 0 ∧ qexpOf s ≤ 1046 := by
  have he : expOf s ≤ 1047 := by unfold expOf; omega
  refine ⟨?_, ?_, rfl, ?_, ?_⟩
  · unfold isNaN; simp; omega
  · unfold isInf; simp; omega
  · unfold signOf; omega
  · unfold qexpOf; omega

theorem ffma_invPi_shift (s : Nat) (hs : s ≤ 0x4170000000000000) :
    ∃ k, k ≤ 2^24 ∧ ffma InvPi.1 s Shift.1 = 0x4338000000000000 + k := by
  have hI : InvPi.1 = 0x3FD45F306DC9C883 := congrArg Prod.fst InvPi_bits
  have hS : Shift.1 = 0x4338000000000000 := congrArg Prod.fst Shift_bits
  rw [hI, hS]
  obtain ⟨hns, his, -, hss, hqs⟩ := finite_facts s hs
  have hnI : isNaN 0x3FD45F306DC9C883 = false := by decide
  have hiI : isInf 0x3FD45F306DC9C883 = false := by decide
  have hzI : isZero 0x3FD45F306DC9C883 = false := by decide
  have hsI : signOf 0x3FD45F306DC9C883 = 0 := by decide
  have hqI : qexpOf 0x3FD45F306DC9C883 = 1020 := by decide
  have hmI : mantOf 0x3FD45F306DC9C883 = 0x145F306DC9C883 := by decide
  have hnS : isNaN 0x4338000000000000 = false := by decide
  have hiS : isInf 0x4338000000000000 = false := by decide
  have hsS : signOf 0x4338000000000000 = 0 := by decide
  have hqS : qexpOf 0x4338000000000000 = 1074 := by decide
  have hmS : mantOf 0x4338000000000000 = 0x18000000000000 := by decide
  have hms := mantOf_lt s
  unfold ffma
  simp only [hns, his, hss, hnI, hiI, hzI, hsI, hqI, hmI, hnS, hiS, hsS, hqS, hmS,
    Bool.false_eq_true, or_self, and_false, false_and, if_false, if_true, packSign_zero]
  have e0 : (0 + 0) % 2 = 0 := rfl
  have emin : min (1020 + qexpOf s) (1074 + 1074) = 2148 - (1128 - qexpOf s) := by omega
  rw [e0, packSign_zero, emin]
  have e1 : 1020 + qexpOf s - (2148 - (1128 - qexpOf s)) = 0 := by omega
  have e2 : 1074 + 1074 - (2148 - (1128 - qexpOf s)) = 1128 - qexpOf s := by omega
  rw [e1, e2, Nat.pow_zero, Nat.mul_one]
  have hP : 0x145F306DC9C883 * mantOf s < 2^106 := by
    have h := Nat.mul_lt_mul'' (by norm_num : 0x145F306DC9C883 < 2^53) hms
    rw [← Nat.pow_add] at h
    exact h
  exact roundMag_shift _ _ hP (by omega) (by omega)

/-- The shifted multiple of line 63: for a lane magnitude below the pattern of
2^23, `n` is the double `0x1.8p52 + k` for an integer `0 <= k <= 2^24`. -/
theorem nLane_form (r : Nat) (hr : r < 0x4160000000000000) :
    ∃ k, k ≤ 2^24 ∧ nLane r = 0x4338000000000000 + k :=
  ffma_invPi_shift _ (fadd_halfPi_le r hr)

/-! ## The sign word of line 64 -/

theorem shl63 (n : Nat) : (n * 2^63) % 2^64 = (n % 2) * 2^63 := by omega

theorem xor_zero_or_top_mod (y o : Nat) (ho : o = 0 ∨ o = 2^63) :
    (y ^^^ o) % 2^63 = y % 2^63 := by
  rcases ho with rfl | rfl
  · rw [Nat.xor_zero]
  · apply Nat.eq_of_testBit_eq
    intro j
    rw [Nat.testBit_mod_two_pow, Nat.testBit_mod_two_pow, Nat.testBit_xor, Nat.testBit_two_pow]
    by_cases hj : j < 63
    · have : ¬ (63 = j) := by omega
      simp [hj, this]
    · simp [hj]

theorem signOf_xor_top (y : Nat) : signOf (y ^^^ 2^63) ≠ signOf y := by
  have h := Nat.testBit_xor y (2^63) 63
  rw [Nat.testBit_two_pow, Nat.testBit_to_div_mod, Nat.testBit_to_div_mod] at h
  unfold signOf
  generalize (y ^^^ 2^63) / 2^63 % 2 = a at h ⊢
  have hb : y / 2^63 % 2 < 2 := Nat.mod_lt _ (by norm_num)
  generalize y / 2^63 % 2 = b at h hb ⊢
  intro hab
  subst hab
  simp at h

/-! ## The accuracy at one input -/

theorem toRat_x0 : toRat 0x41361F71DE37BE6E = 3113511703797559 / 2^31 := by
  have h1 : signOf 0x41361F71DE37BE6E = 0 := by decide
  have h2 : mantOf 0x41361F71DE37BE6E = 0x161F71DE37BE6E := by decide
  have h3 : qexpOf 0x41361F71DE37BE6E = 1042 := by decide
  unfold toRat
  rw [h1, h2, h3]
  norm_num

theorem toRat_y0 : toRat 0xBFEFFFFFFFFFF00A = -(0x1FFFFFFFFFF00A / 2^53) := by
  have h1 : signOf 0xBFEFFFFFFFFFF00A = 1 := by decide
  have h2 : mantOf 0xBFEFFFFFFFFFF00A = 0x1FFFFFFFFFF00A := by decide
  have h3 : qexpOf 0xBFEFFFFFFFFFF00A = 1021 := by decide
  unfold toRat
  rw [h1, h2, h3]
  norm_num

set_option maxRecDepth 100000 in
theorem fastLane_x0 : fastLane 0x41361F71DE37BE6E = 0xBFEFFFFFFFFFF00A := by decide!


theorem cos_x0_eq :
    Real.cos ((3113511703797559 : ℝ) / 2^31)
      = -Real.cos ((3113511703797559 : ℝ) / 2^31 - 461499 * Real.pi) := by
  have h := Real.cos_add_nat_mul_pi ((3113511703797559 : ℝ) / 2^31 - 461499 * Real.pi) 461499
  have e : (3113511703797559 : ℝ) / 2^31 - 461499 * Real.pi + ((461499 : ℕ) : ℝ) * Real.pi
      = (3113511703797559 : ℝ) / 2^31 := by push_cast; ring
  rw [e] at h
  rw [h, Odd.neg_one_pow (by decide)]
  ring

theorem delta_bounds :
    (3113511703797559 : ℝ) / 2^31 - 461499 * 3.14159265358979323847
        < (3113511703797559 : ℝ) / 2^31 - 461499 * Real.pi ∧
      (3113511703797559 : ℝ) / 2^31 - 461499 * Real.pi < 0 := by
  have h1 := Real.pi_gt_d20
  have h2 := Real.pi_lt_d20
  constructor
  · linarith
  · have : (3113511703797559 : ℝ) / 2^31 - 461499 * 3.14159265358979323846 < 0 := by norm_num
    linarith

theorem cos_x0_upper :
    Real.cos ((3113511703797559 : ℝ) / 2^31)
      < -(0x1FFFFFFFFFF00A / 2^53 : ℝ) - 3.5 / 2^53 := by
  rw [cos_x0_eq]
  obtain ⟨hd2, hd1⟩ := delta_bounds
  have hlow := Real.one_sub_sq_div_two_le_cos
    (x := (3113511703797559 : ℝ) / 2^31 - 461499 * Real.pi)
  have hsq : ((3113511703797559 : ℝ) / 2^31 - 461499 * Real.pi)^2
      < ((3113511703797559 : ℝ) / 2^31 - 461499 * 3.14159265358979323847)^2 := by
    nlinarith
  have hnum : -(1 - ((3113511703797559 : ℝ) / 2^31 - 461499 * 3.14159265358979323847)^2 / 2)
      < -(0x1FFFFFFFFFF00A / 2^53 : ℝ) - 3.5 / 2^53 := by norm_num
  linarith


theorem cos_x0_lower : -1 < Real.cos ((3113511703797559 : ℝ) / 2^31) := by
  rw [cos_x0_eq]
  obtain ⟨hd2, hd1⟩ := delta_bounds
  have hpi := Real.pi_gt_three
  have hne : Real.cos ((3113511703797559 : ℝ) / 2^31 - 461499 * Real.pi) ≠ 1 := by
    intro h
    have h0 := (Real.cos_eq_one_iff_of_lt_of_lt
      (x := (3113511703797559 : ℝ) / 2^31 - 461499 * Real.pi)
      (by
        have : -(2 * Real.pi) < (3113511703797559 : ℝ) / 2^31 - 461499 * 3.14159265358979323847 := by
          have : (-6 : ℝ) < (3113511703797559 : ℝ) / 2^31 - 461499 * 3.14159265358979323847 := by
            norm_num
          linarith
        linarith)
      (by linarith)).mp h
    linarith
  have hle := Real.cos_le_one ((3113511703797559 : ℝ) / 2^31 - 461499 * Real.pi)
  have hlt := lt_of_le_of_ne hle hne
  linarith

/-! ## Claims about the vector cosine -/

/-- C1: a lane that is NaN, infinite or of magnitude at least 2^23 is flagged
by the unsigned comparison of its sign-stripped pattern against the pattern of
2^23, and that lane of the result is the scalar cosine of the original signed
lane, bit for bit, in both build modes. -/
theorem claim_C1_rare_lane (se : Bool) (cos : Nat → Nat) (x : V2) (i : Fin 2)
    (h : rareLane (lane x i)) :
    lane (cmpMask x) i = 2^64 - 1 ∧ lane (V_NAME_cos se cos x) i = cos (lane x i) := by
  have hf := (rareLane_iff (lane x i)).mp h
  rw [lane_cmpMask, lane_V_NAME_cos, if_pos hf, if_pos hf]
  exact ⟨rfl, rfl⟩

/-- C1 at the input [1e300, -inf] with a scalar function that tags its
argument: both lanes are flagged and each holds its tagged original lane. -/
theorem claim_C1_rare_lane_witness :
    (rareLane (lane (0x7E37E43C8800759C, 0xFFF0000000000000) 0) ∧
      lane (cmpMask (0x7E37E43C8800759C, 0xFFF0000000000000)) 0 = 2^64 - 1 ∧
      lane (V_NAME_cos true (fun b => b + 1) (0x7E37E43C8800759C, 0xFFF0000000000000)) 0
        = 0x7E37E43C8800759D) ∧
    (rareLane (lane (0x7E37E43C8800759C, 0xFFF0000000000000) 1) ∧
      lane (cmpMask (0x7E37E43C8800759C, 0xFFF0000000000000)) 1 = 2^64 - 1 ∧
      lane (V_NAME_cos true (fun b => b + 1) (0x7E37E43C8800759C, 0xFFF0000000000000)) 1
        = 0xFFF0000000000001) :=
  have h0 : rareLane (lane (0x7E37E43C8800759C, 0xFFF0000000000000) 0) :=
    (rareLane_iff _).mpr (by decide)
  have h1 : rareLane (lane (0x7E37E43C8800759C, 0xFFF0000000000000) 1) :=
    (rareLane_iff _).mpr (by decide)
  ⟨⟨h0, claim_C1_rare_lane true (fun b => b + 1)
      (0x7E37E43C8800759C, 0xFFF0000000000000) 0 h0⟩,
   ⟨h1, claim_C1_rare_lane true (fun b => b + 1)
      (0x7E37E43C8800759C, 0xFFF0000000000000) 1 h1⟩⟩

/-- C2 fails at x = 0x1.61f71de37be6ep+20 in both lanes: the lane is finite
with |x| < 2^23, the vector cosine returns -0x1.ffffffffff00ap-1 in every build
mode, the result and the true cosine both have magnitude in [1/2, 1), where
one unit in the last place is 2^-53, and they differ by more than 3.5 * 2^-53. -/
theorem claim_C2_exceeds (se : Bool) (cosr : Nat → Nat) (i : Fin 2) :
    fastDomain 0x41361F71DE37BE6E ∧
    lane (V_NAME_cos se cosr (0x41361F71DE37BE6E, 0x41361F71DE37BE6E)) i
      = 0xBFEFFFFFFFFFF00A ∧
    (1 / 2 ≤ |toRat 0xBFEFFFFFFFFFF00A| ∧ |toRat 0xBFEFFFFFFFFFF00A| < 1) ∧
    (1 / 2 ≤ |Real.cos ((toRat 0x41361F71DE37BE6E : ℚ) : ℝ)| ∧
      |Real.cos ((toRat 0x41361F71DE37BE6E : ℚ) : ℝ)| < 1) ∧
    3.5 / 2^53 < |((toRat 0xBFEFFFFFFFFFF00A : ℚ) : ℝ)
        - Real.cos ((toRat 0x41361F71DE37BE6E : ℚ) : ℝ)| := by
  have hx : ((toRat 0x41361F71DE37BE6E : ℚ) : ℝ) = (3113511703797559 : ℝ) / 2^31 := by
    rw [toRat_x0]; push_cast; rfl
  have hy : ((toRat 0xBFEFFFFFFFFFF00A : ℚ) : ℝ) = -(0x1FFFFFFFFFF00A / 2^53 : ℝ) := by
    rw [toRat_y0]; push_cast; rfl
  have hup := cos_x0_upper
  have hlo := cos_x0_lower
  have hfd : fastDomain 0x41361F71DE37BE6E := (fastDomain_iff _).mpr (by decide)
  refine ⟨hfd, ?_, ?_, ?_, ?_⟩
  · rw [lane_V_NAME_cos]
    have e : lane ((0x41361F71DE37BE6E, 0x41361F71DE37BE6E) : V2) i = 0x41361F71DE37BE6E := by
      unfold lane; split <;> rfl
    rw [e, if_neg (by decide)]
    exact fastLane_x0
  · rw [toRat_y0]
    constructor
    · rw [abs_neg, abs_of_pos (by norm_num)]; norm_num
    · rw [abs_neg, abs_of_pos (by norm_num)]; norm_num
  · rw [hx]
    have hneg : Real.cos ((3113511703797559 : ℝ) / 2^31) < 0 := by
      have : -(0x1FFFFFFFFFF00A / 2^53 : ℝ) - 3.5 / 2^53 < 0 := by norm_num
      linarith
    rw [abs_of_neg hneg]
    constructor
    · have : -(0x1FFFFFFFFFF00A / 2^53 : ℝ) - 3.5 / 2^53 < -(1/2) := by norm_num
      linarith
    · linarith
  · rw [hx, hy]
    have hpos : 3.5 / 2^53 < -(0x1FFFFFFFFFF00A / 2^53 : ℝ)
        - Real.cos ((3113511703797559 : ℝ) / 2^31) := by linarith
    exact lt_of_lt_of_le hpos (le_abs_self _)

/-- C3: a finite lane of magnitude below 2^23 is not flagged, and that lane of
the result is the fast-path value of that lane alone: it is the same for every
other lane content, scalar cosine and build mode. -/
theorem claim_C3_frame (se : Bool) (cos : Nat → Nat) (x : V2) (i : Fin 2)
    (h : fastDomain (lane x i)) :
    lane (cmpMask x) i = 0 ∧
    lane (V_NAME_cos se cos x) i = fastLane (lane x i % 2^63) ∧
    ∀ (se2 : Bool) (cos2 : Nat → Nat) (x2 : V2), lane x2 i = lane x i →
      lane (V_NAME_cos se2 cos2 x2) i = lane (V_NAME_cos se cos x) i := by
  have hf := (fastDomain_iff (lane x i)).mp h
  have hn : ¬ (0x4160000000000000 ≤ lane x i % 2^63) := by omega
  refine ⟨?_, ?_, ?_⟩
  · rw [lane_cmpMask, if_neg hn]
  · rw [lane_V_NAME_cos, if_neg hn]
  · intro se2 cos2 x2 hx
    rw [lane_V_NAME_cos, lane_V_NAME_cos, hx, if_neg hn, if_neg hn]

/-- C3 at the input [NaN, 5.0]: lane 1 is not flagged and holds the fast-path
value of 5.0 although the rare path runs for lane 0. -/
theorem claim_C3_frame_witness :
    fastDomain (lane (0x7FF8000000000000, 0x4014000000000000) 1) ∧
    lane (cmpMask (0x7FF8000000000000, 0x4014000000000000)) 0 = 2^64 - 1 ∧
    lane (cmpMask (0x7FF8000000000000, 0x4014000000000000)) 1 = 0 ∧
    lane (V_NAME_cos false (fun b => b) (0x7FF8000000000000, 0x4014000000000000)) 1
      = 0x3FD22785706B4ADA :=
  have h : fastDomain (lane (0x7FF8000000000000, 0x4014000000000000) 1) :=
    (fastDomain_iff _).mpr (by decide)
  have t := claim_C3_frame false (fun b => b) (0x7FF8000000000000, 0x4014000000000000) 1 h
  ⟨h, by rw [lane_cmpMask]; decide, t.1, t.2.1.trans fastLane_five⟩

/-- C5: the build with strict floating-point exceptions returns the same two
values as the build without. -/
theorem claim_C5_mode_independent (cos : Nat → Nat) (x : V2) :
    V_NAME_cos true cos x = V_NAME_cos false cos x := by
  apply Prod.ext
  · rw [V_NAME_cos_fst, V_NAME_cos_fst]
  · rw [V_NAME_cos_snd, V_NAME_cos_snd]

/-- C4 (amended): on a lane of the fast domain (zeros of either sign
included) the vector cosine of x and of -x agree bit for bit; on a rare-path
lane the two results are the scalar cosine of -x[i] and of x[i]. -/
theorem claim_C4_even (se : Bool) (cos : Nat → Nat) (x : V2) (i : Fin 2) :
    (fastDomain (lane x i) →
      lane (V_NAME_cos se cos (vneg x)) i = lane (V_NAME_cos se cos x) i) ∧
    (rareLane (lane x i) →
      lane (V_NAME_cos se cos (vneg x)) i = cos (fneg (lane x i)) ∧
      lane (V_NAME_cos se cos x) i = cos (lane x i)) := by
  rw [lane_V_NAME_cos, lane_V_NAME_cos, lane_vneg, fneg_mod]
  constructor
  · intro h
    have hf := (fastDomain_iff (lane x i)).mp h
    rw [if_neg (by omega), if_neg (by omega)]
  · intro h
    have hf := (rareLane_iff (lane x i)).mp h
    rw [if_pos hf, if_pos hf]
    exact ⟨rfl, rfl⟩

/-- C4 as stated fails at the input [NaN, 0.0].  For a scalar cosine that
returns a NaN operand made quiet and is even on every other input, lane 0 of
the two results differs in the sign bit; and whatever the scalar cosine, as
long as it maps the NaN to a NaN, lane 0 of the two results is not equal under
the comparison of C. -/
theorem claim_C4_counterexample :
    (∃ cos : Nat → Nat,
      (∀ b, isNaN b = true → cos b = quietNaN b) ∧
      (∀ b, isNaN b = false → cos (fneg b) = cos b) ∧
      lane (V_NAME_cos false cos (vneg (0x7FF8000000000000, 0))) 0 = 0xFFF8000000000000 ∧
      lane (V_NAME_cos false cos (0x7FF8000000000000, 0)) 0 = 0x7FF8000000000000) ∧
    (∀ cos : Nat → Nat, isNaN (cos 0x7FF8000000000000) = true →
      feq (lane (V_NAME_cos false cos (vneg (0x7FF8000000000000, 0))) 0)
          (lane (V_NAME_cos false cos (0x7FF8000000000000, 0)) 0) = false) := by
  constructor
  · refine ⟨fun b => if isNaN b = true then quietNaN b else 0x3FF0000000000000, ?_, ?_, ?_, ?_⟩
    · intro b hb; simp [hb]
    · intro b hb; simp [hb, isNaN_fneg]
    · rw [lane_V_NAME_cos]; decide!
    · rw [lane_V_NAME_cos]; decide!
  · intro cos hc
    have h2 : lane (V_NAME_cos false cos (0x7FF8000000000000, 0)) 0 = cos 0x7FF8000000000000 := by
      rw [lane_V_NAME_cos, if_pos (by decide)]; rfl
    rw [h2]
    simp [feq, hc]

/-- C8 (amended): the vector cosine of [0.0, 0.0] is 1 - 2^-53 in each lane,
the double just below 1.0, for every build mode and scalar cosine. -/
theorem claim_C8_zero (se : Bool) (cos : Nat → Nat) :
    V_NAME_cos se cos (0, 0) = (0x3FEFFFFFFFFFFFFF, 0x3FEFFFFFFFFFFFFF) := by
  rw [V_NAME_cos_fast_pair se cos 0 0 (by decide) (by decide), fastLane_zero]

/-- C8 as stated fails: no build mode and no scalar cosine make the vector
cosine of [0.0, 0.0] equal to [1.0, 1.0]. -/
theorem claim_C8_counterexample :
    ¬ ∃ (se : Bool) (cos : Nat → Nat),
      V_NAME_cos se cos (0, 0) = (0x3FF0000000000000, 0x3FF0000000000000) := by
  rintro ⟨se, cos, h⟩
  rw [V_NAME_cos_fast_pair se cos 0 0 (by decide) (by decide), fastLane_zero] at h
  exact absurd (congrArg Prod.fst h) (by decide)

/-- C10: the sign word `odd = bits (n) << 63` of any lane has no bit set other
than bit 63, so the exclusive or with it keeps the low 63 bits; and on a finite
lane of magnitude below 2^23 the shifted value `n` is the integer-valued
double `0x1.8p52 + k` with `k < 2^51`, bit 63 of `odd` is set exactly when
`k` is odd, and the sign of the result differs from the sign of the polynomial
value exactly then. -/
theorem claim_C10_sign (se : Bool) (cos : Nat → Nat) (x n y : V2) (i : Fin 2) :
    (lane (vshlq_n_u64 n 63) i = 0 ∨ lane (vshlq_n_u64 n 63) i = 2^63) ∧
    lane (veorq_u64 y (vshlq_n_u64 n 63)) i % 2^63 = lane y i % 2^63 ∧
    (fastDomain (lane x i) →
      ∃ k, k < 2^51 ∧
        nLane (lane x i % 2^63) = Shift.1 + k ∧
        mantOf (nLane (lane x i % 2^63)) = 0x18000000000000 + k ∧
        qexpOf (nLane (lane x i % 2^63)) = 1074 ∧
        (oddLane (lane x i % 2^63) = 2^63 ↔ k % 2 = 1) ∧
        lane (V_NAME_cos se cos x) i
          = polyLane (lane x i % 2^63) ^^^ oddLane (lane x i % 2^63) ∧
        (signOf (lane (V_NAME_cos se cos x) i) ≠ signOf (polyLane (lane x i % 2^63))
          ↔ k % 2 = 1)) := by
  have hodd : lane (vshlq_n_u64 n 63) i = 0 ∨ lane (vshlq_n_u64 n 63) i = 2^63 := by
    unfold lane vshlq_n_u64
    split <;> simp only [shl63] <;> omega
  have hxor : lane (veorq_u64 y (vshlq_n_u64 n 63)) i
      = lane y i ^^^ lane (vshlq_n_u64 n 63) i := by
    unfold lane veorq_u64; split <;> rfl
  refine ⟨hodd, ?_, ?_⟩
  · rw [hxor]; exact xor_zero_or_top_mod _ _ hodd
  · intro h
    have hf := (fastDomain_iff (lane x i)).mp h
    generalize hr : lane x i % 2^63 = r at hf ⊢
    obtain ⟨k, hk, hn⟩ := nLane_form r hf
    have hS : Shift.1 = 0x4338000000000000 := congrArg Prod.fst Shift_bits
    have ho : oddLane r = (k % 2) * 2^63 := by
      unfold oddLane; rw [hn, shl63]; omega
    have hres : lane (V_NAME_cos se cos x) i = polyLane r ^^^ oddLane r := by
      rw [lane_V_NAME_cos, hr, if_neg (by omega)]
      rfl
    refine ⟨k, by omega, by rw [hn, hS], ?_, ?_, ?_, hres, ?_⟩
    · rw [hn]; unfold mantOf expOf fracOf; split <;> omega
    · rw [hn]; unfold qexpOf expOf; omega
    · rw [ho]; omega
    · rw [hres, ho]
      rcases Nat.mod_two_eq_zero_or_one k with hk0 | hk1
      · rw [hk0, Nat.zero_mul, Nat.xor_zero]; simp
      · rw [hk1, Nat.one_mul]
        exact ⟨fun _ => rfl, fun _ => signOf_xor_top _⟩

/-- C10 at the lane 5.0 of the input [0.0, 5.0]. -/
theorem claim_C10_sign_witness :
    fastDomain (lane (0, 0x4014000000000000) 1) ∧
    ∃ k, k < 2^51 ∧
      nLane (lane (0, 0x4014000000000000) 1 % 2^63) = Shift.1 + k ∧
      (oddLane (lane (0, 0x4014000000000000) 1 % 2^63) = 2^63 ↔ k % 2 = 1) :=
  have h : fastDomain (lane (0, 0x4014000000000000) 1) := (fastDomain_iff _).mpr (by decide)
  have t := (claim_C10_sign false (fun b => b) (0, 0x4014000000000000) (0, 0) (0, 0) 1).2.2 h
  ⟨h, t.elim fun k hk => ⟨k, hk.1, hk.2.1, hk.2.2.2.2.1⟩⟩

/-! ## Claims about the error helpers -/

/-- C6: invalid(x) returns a NaN for every double, in the build with status
reporting and in the build without; with reporting on, the error status
becomes the domain error when x is not a NaN and is left as it was when x is a
NaN; with reporting off it is always left as it was. -/
theorem claim_C6_invalid (w : Bool) (x : Nat) (errno : Int) :
    (__math_invalid w x errno).1 = fdiv (fsub x x) (fsub x x) ∧
    isNaN (__math_invalid w x errno).1 = true ∧
    (__math_invalid true x errno).2 = (if isNaN x = true then errno else EDOM) ∧
    (__math_invalid false x errno).2 = errno := by
  unfold __math_invalid with_errno
  cases hn : isNaN x <;> cases w <;>
    exact ⟨by simp, by simpa using invalid_value_nan x, by simp, by simp⟩

/-- C7: under round-to-nearest, for every sign argument and in both builds,
underflow returns a zero, may-underflow the smallest subnormal and overflow an
infinity, each negative exactly when sign is non-zero; with reporting on the
status becomes the range error, with reporting off it is left as it was. -/
theorem claim_C7_xflow (w : Bool) (sign : Nat) (errno : Int) :
    __math_uflow w sign errno
      = (if sign = 0 then 0 else 0x8000000000000000,
         if w = true then ERANGE else errno) ∧
    __math_may_uflow w sign errno
      = (if sign = 0 then 1 else 0x8000000000000001,
         if w = true then ERANGE else errno) ∧
    __math_oflow w sign errno
      = (if sign = 0 then 0x7FF0000000000000 else 0xFFF0000000000000,
         if w = true then ERANGE else errno) := by
  obtain ⟨h1, h2, h3, h4, h5, h6⟩ := xflow_products
  unfold __math_uflow __math_may_uflow __math_oflow xflow with_errno eval_as_double
    opt_barrier_double
  by_cases hs : sign = 0 <;> cases w
  · simp [hs, h1, h3, h5]
  · simp [hs, h1, h3, h5]
  · simp [hs, h2, h4, h6]
  · simp [hs, h2, h4, h6]

/-- C9: the result checkers return y bit for bit in both builds; with
reporting on, check-underflow sets the range error exactly when y is a zero of
either sign, check-overflow exactly when y is an infinity of either sign, and
otherwise (NaN included) the status is left as it was; with reporting off the
status is always left as it was. -/
theorem claim_C9_checks (y : Nat) (errno : Int) (hy : y < 2^64) :
    __math_check_uflow true y errno
      = (y, if y = 0 ∨ y = 0x8000000000000000 then ERANGE else errno) ∧
    __math_check_oflow true y errno
      = (y, if y = 0x7FF0000000000000 ∨ y = 0xFFF0000000000000 then ERANGE else errno) ∧
    __math_check_uflow false y errno = (y, errno) ∧
    __math_check_oflow false y errno = (y, errno) := by
  unfold __math_check_uflow __math_check_oflow with_errno
  refine ⟨?_, ?_, by simp, by simp⟩
  · by_cases h : y = 0 ∨ y = 2^63
    · rw [if_pos ((feq_zero_iff y hy).mpr h)]
      simp only [if_true]
      rw [if_pos (by simpa using h)]
    · rw [if_neg (fun hc => h ((feq_zero_iff y hy).mp hc))]
      rw [if_neg (by simpa using h)]
  · by_cases h : y = 0x7FF0000000000000 ∨ y = 0xFFF0000000000000
    · rw [if_pos ((isInf_iff y hy).mpr h), if_pos h]
      simp only [if_true]
    · rw [if_neg (fun hc => h ((isInf_iff y hy).mp hc)), if_neg h]

/-- C9 at the negative zero, at a NaN and at the negative infinity, with
reporting on, and at the negative zero and the positive infinity with
reporting off. -/
theorem claim_C9_checks_witness :
    __math_check_uflow true 0x8000000000000000 0 = (0x8000000000000000, ERANGE) ∧
    __math_check_oflow true 0x8000000000000000 0 = (0x8000000000000000, 0) ∧
    __math_check_uflow true 0x7FF8000000000000 0 = (0x7FF8000000000000, 0) ∧
    __math_check_oflow true 0xFFF0000000000000 0 = (0xFFF0000000000000, ERANGE) ∧
    __math_check_uflow false 0x8000000000000000 0 = (0x8000000000000000, 0) ∧
    __math_check_oflow false 0x7FF0000000000000 0 = (0x7FF0000000000000, 0) :=
  ⟨(claim_C9_checks 0x8000000000000000 0 (by decide)).1,
   (claim_C9_checks 0x8000000000000000 0 (by decide)).2.1,
   (claim_C9_checks 0x7FF8000000000000 0 (by decide)).1,
   (claim_C9_checks 0xFFF0000000000000 0 (by decide)).2.1,
   (claim_C9_checks 0x8000000000000000 0 (by decide)).2.2.1,
   (claim_C9_checks 0x7FF0000000000000 0 (by decide)).2.2.2⟩

end ArmMath
